import Mathlib

/-!
Shallow embedding of the URL/path matching logic of the navigation Item
component (src/components/Nav/components/Item/Item.tsx): the MatchState
enum, the ItemURLDetails record, the helpers normalizePathname, safeEqual
and safeStartsWith, the classifier matchStateForItem, the activity test
isNavItemActive, and the longestMatch selection over matching sub items.

Modelling conventions: optional TypeScript fields become Option; a
JavaScript truthiness test on a declared optional boolean field is a
comparison with some true; strings are handled through their character
lists, so s.split(c)[0] is the longest prefix free of c, s.endsWith "/" is
getLast? = some '/', and String.prototype.startsWith is a structural
prefix test on characters.
-/

/-- The five classification outcomes, mirroring the MatchState enum of the
source. -/
inductive MatchState where
  | MatchForced
  | MatchUrl
  | MatchPaths
  | Excluded
  | NoMatch
deriving DecidableEq, Repr

/-- The ItemURLDetails interface: every matching-relevant field is
optional. -/
structure ItemURLDetails where
  url : Option String := none
  «matches» : Option Bool := none
  exactMatch : Option Bool := none
  matchPaths : Option (List String) := none
  excludePaths : Option (List String) := none
deriving DecidableEq, Repr

/-- The JavaScript expression s.split(c)[0]: the longest prefix of the
character list holding no occurrence of c. -/
def splitHead (c : Char) (l : List Char) : List Char :=
  l.takeWhile (fun d => d ≠ c)

/-- The local barePathname of normalizePathname:
pathname.split(QUESTION)[0].split(HASH)[0], dropping everything from the
first question mark and then from the first hash sign. -/
def barePathChars (l : List Char) : List Char :=
  splitHead '#' (splitHead '?' l)

/-- Character-list body of normalizePathname: the bare path, with a slash
appended unless it already ends with one. -/
def normalizeChars (l : List Char) : List Char :=
  if (barePathChars l).getLast? = some '/' then barePathChars l
  else barePathChars l ++ ['/']

/-- normalizePathname from the source: strip the query string and the
fragment, then append a slash unless the result already ends with one. -/
def normalizePathname (pathname : String) : String :=
  String.mk (normalizeChars pathname.toList)

/-- Structural prefix test on character lists, modelling
String.prototype.startsWith: startsWithChars s p is true when p is a
prefix of s. -/
def startsWithChars (s pre : List Char) : Bool :=
  match pre, s with
  | [], _ => true
  | _ :: _, [] => false
  | d :: ds, c :: cs => c == d && startsWithChars cs ds

/-- safeEqual from the source: equality of the normalized paths. -/
def safeEqual (location path : String) : Bool :=
  normalizePathname location == normalizePathname path

/-- safeStartsWith from the source: the normalized location starts with
the normalized path. -/
def safeStartsWith (location path : String) : Bool :=
  startsWithChars (normalizePathname location).toList (normalizePathname path).toList

/-- The guard pattern paths and paths.some((path) => safeStartsWith(location, path))
used for excludePaths and matchPaths: false when the field is absent. -/
def anyPathStartsWith (location : String) : Option (List String) → Bool
  | some paths => paths.any (fun path => safeStartsWith location path)
  | none => false

/-- matchStateForItem from the source, step for step: absent url short
circuits to NoMatch; a truthy matches field forces MatchForced; matches
strictly equal to false or an excludePaths hit yields Excluded; a
matchPaths hit yields MatchPaths; otherwise the location is compared with
the url, by normalized equality when exactMatch is truthy and by
normalized prefix otherwise. -/
def matchStateForItem (item : ItemURLDetails) (location : String) : MatchState :=
  match item.url with
  | none => MatchState.NoMatch
  | some url =>
    if item.«matches» = some true then
      MatchState.MatchForced
    else if item.«matches» = some false ∨ anyPathStartsWith location item.excludePaths = true then
      MatchState.Excluded
    else if anyPathStartsWith location item.matchPaths = true then
      MatchState.MatchPaths
    else if (match item.exactMatch with
             | some true => safeEqual location url
             | _ => safeStartsWith location url) = true then
      MatchState.MatchUrl
    else
      MatchState.NoMatch

/-- SubNavItem: a sub navigation entry; its url is required. Only the
matching-relevant fields are modelled. -/
structure SubNavItem where
  url : String
  «matches» : Option Bool := none
  exactMatch : Option Bool := none
  matchPaths : Option (List String) := none
  excludePaths : Option (List String) := none
deriving DecidableEq, Repr

/-- A SubNavItem used where ItemURLDetails is expected (TypeScript
structural subtyping). -/
def SubNavItem.toDetails (i : SubNavItem) : ItemURLDetails :=
  { url := some i.url, «matches» := i.«matches», exactMatch := i.exactMatch,
    matchPaths := i.matchPaths, excludePaths := i.excludePaths }

/-- Props of the Item component, restricted to the fields the matching
logic reads. -/
structure Props where
  url : Option String := none
  «matches» : Option Bool := none
  exactMatch : Option Bool := none
  matchPaths : Option (List String) := none
  excludePaths : Option (List String) := none
  subNavItems : Option (List SubNavItem) := none
deriving Repr

/-- The ItemURLDetails fields of Props (structural subtyping). -/
def Props.toDetails (p : Props) : ItemURLDetails :=
  { url := p.url, «matches» := p.«matches», exactMatch := p.exactMatch,
    matchPaths := p.matchPaths, excludePaths := p.excludePaths }

/-- The three MatchState values the source treats as active. -/
def isActiveState (s : MatchState) : Bool :=
  s == MatchState.MatchForced || s == MatchState.MatchUrl || s == MatchState.MatchPaths

/-- isNavItemActive from the source: the item itself is in an active
state, or the filtered sub items are nonempty. -/
def isNavItemActive (navItem : Props) (currentPath : String) : Bool :=
  let matchState := matchStateForItem navItem.toDetails currentPath
  let matchingSubItems :=
    navItem.subNavItems.map
      (fun items => items.filter
        (fun item => isActiveState (matchStateForItem item.toDetails currentPath)))
  let childIsActive :=
    match matchingSubItems with
    | some items => decide (items.length > 0)
    | none => false
  isActiveState matchState || childIsActive

/-- The matchingSubNavItems filter of the render method: the sub items
whose classification is one of the three active states. -/
def matchingSubNavItems (subNavItems : List SubNavItem) (location : String) : List SubNavItem :=
  subNavItems.filter (fun item => isActiveState (matchStateForItem item.toDetails location))

/-- The sort comparator (a, b) => b.url.length - a.url.length keeps a
before b exactly when that difference is nonpositive, that is when
b.url.length is at most a.url.length. -/
def subItemBefore (a b : SubNavItem) : Bool :=
  b.url.length ≤ a.url.length

/-- longestMatch from the render method: the matching sub items sorted by
descending url length and indexed at 0. Array.prototype.sort is required
to be stable, and for the consistent comparator above the stable sorted
arrangement is unique, so the sort is modelled with the stable mergeSort;
indexing an empty array yields undefined, modelled as none. -/
def longestMatch (subNavItems : List SubNavItem) (location : String) : Option SubNavItem :=
  ((matchingSubNavItems subNavItems location).mergeSort subItemBefore).head?

/-- Modelled from the spec prose of selectBestMatch: the first element of
greatest url length in a list, none on the empty list. -/
def firstLongest : List SubNavItem → Option SubNavItem
  | [] => none
  | a :: rest =>
    match firstLongest rest with
    | none => some a
    | some b => if a.url.length < b.url.length then some b else some a

/-- Modelled from the spec prose of classify: the five steps in their
stated precedence order; the spec name forcedMatch denotes the matches
field. Step one, absent url gives NoMatch; step two,
forcedMatch true gives ForcedMatch; step three, forcedMatch false or a
normalized excludePaths prefix hit gives Excluded; step four, a normalized
matchPaths prefix hit gives PathsMatch; step five, normalized equality
with the url under exactMatch and normalized prefix otherwise decides
between UrlMatch and NoMatch. -/
def specClassify (rule : ItemURLDetails) (location : String) : MatchState :=
  match rule.url with
  | none => MatchState.NoMatch
  | some url =>
    if rule.«matches» = some true then
      MatchState.MatchForced
    else if rule.«matches» = some false ∨ anyPathStartsWith location rule.excludePaths = true then
      MatchState.Excluded
    else if anyPathStartsWith location rule.matchPaths = true then
      MatchState.MatchPaths
    else if (if rule.exactMatch = some true then safeEqual location url
             else safeStartsWith location url) = true then
      MatchState.MatchUrl
    else
      MatchState.NoMatch

/-- The greatest url length occurring in a list of sub items (zero on the
empty list); used to characterise the longest-match selection. -/
def maxUrlLength : List SubNavItem → Nat
  | [] => 0
  | a :: rest => max a.url.length (maxUrlLength rest)

/-- C1 counterexample: a rule with matches set to true but no url is
classified NoMatch, not MatchForced, because the absent-url check runs
first. -/
theorem forcedMatch_true_without_url_counterexample :
    matchStateForItem
      { url := none, «matches» := some true,
        matchPaths := some ["/a"], excludePaths := some ["/b"] } "/a"
      = MatchState.NoMatch ∧
    matchStateForItem
      { url := none, «matches» := some true,
        matchPaths := some ["/a"], excludePaths := some ["/b"] } "/a"
      ≠ MatchState.MatchForced := by
  exact ⟨rfl, by decide⟩

/-- C1 (amended with a present url): whenever the url field is present,
a rule with matches set to true is classified MatchForced, whatever the
url content, matchPaths, excludePaths, exactMatch and location are. -/
theorem forcedMatch_true_forces_match (url : String) (em : Option Bool)
    (mp ep : Option (List String)) (location : String) :
    matchStateForItem
      { url := some url, «matches» := some true, exactMatch := em,
        matchPaths := mp, excludePaths := ep } location
      = MatchState.MatchForced := rfl

/-- C2 counterexample: a rule with matches set to false but no url is
classified NoMatch, not Excluded, because the absent-url check runs
first. -/
theorem forcedMatch_false_without_url_counterexample :
    matchStateForItem { url := none, «matches» := some false } "/a"
      = MatchState.NoMatch ∧
    matchStateForItem { url := none, «matches» := some false } "/a"
      ≠ MatchState.Excluded := by
  exact ⟨rfl, by decide⟩

/-- C2 (amended with a present url): whenever the url field is present, a
rule with matches set to false is classified Excluded at every location,
never any of the three match states. -/
theorem forcedMatch_false_excludes (url : String) (em : Option Bool)
    (mp ep : Option (List String)) (location : String) :
    matchStateForItem
      { url := some url, «matches» := some false, exactMatch := em,
        matchPaths := mp, excludePaths := ep } location
      = MatchState.Excluded := rfl

/-- C3: the classifier of the source evaluates its criteria exactly in the
precedence order the spec states, step for step. -/
theorem matchStateForItem_eq_specClassify (rule : ItemURLDetails) (location : String) :
    matchStateForItem rule location = specClassify rule location := by
  unfold matchStateForItem specClassify
  cases rule.url with
  | none => rfl
  | some url =>
    cases hem : rule.exactMatch with
    | none => rfl
    | some b => cases b <;> rfl

/-- C7: exactMatch distinguishes prefix from equality, and normalization
keeps a sibling path such as /foo-bar from counting as a prefix match of
/foo. -/
theorem exactMatch_distinguishes_prefix_from_equality :
    matchStateForItem { url := some "/foo", exactMatch := some false } "/foo/bar"
      = MatchState.MatchUrl ∧
    matchStateForItem { url := some "/foo", exactMatch := some true } "/foo/bar"
      = MatchState.NoMatch ∧
    matchStateForItem { url := some "/foo" } "/foo-bar"
      = MatchState.NoMatch := by
  refine ⟨by decide, by decide, by decide⟩

/-- C9: classification ignores a trailing slash on the location and a
query or fragment suffix. -/
theorem classification_ignores_trailing_slash_and_query :
    matchStateForItem { url := some "/foo", exactMatch := some true } "/foo"
      = MatchState.MatchUrl ∧
    matchStateForItem { url := some "/foo", exactMatch := some true } "/foo/"
      = MatchState.MatchUrl ∧
    matchStateForItem { url := some "/foo" } "/foo?tab=1"
      = MatchState.MatchUrl := by
  refine ⟨by decide, by decide, by decide⟩

/-- C6 counterexample: the stated quantification over every rule whose
excludePaths covers the location fails for a rule without a url (the
concrete rule of the claim, which names no url): it yields NoMatch, not
Excluded. -/
theorem excludePaths_without_url_counterexample :
    matchStateForItem
      { url := none, matchPaths := some ["/foo"],
        excludePaths := some ["/foo/bar"] } "/foo/bar/"
      = MatchState.NoMatch ∧
    matchStateForItem
      { url := none, matchPaths := some ["/foo"],
        excludePaths := some ["/foo/bar"] } "/foo/bar/"
      ≠ MatchState.Excluded := by
  exact ⟨rfl, by decide⟩

/-- C6 (amended to rules with a present url and matches not forced true):
an excludePaths prefix hit yields Excluded, even when matchPaths also
contains a prefix of the location. -/
theorem excludePaths_override_matchPaths (url : String) (m em : Option Bool)
    (mp : Option (List String)) (ep : List String) (location : String)
    (hm : m ≠ some true)
    (hx : ep.any (fun path => safeStartsWith location path) = true) :
    matchStateForItem
      { url := some url, «matches» := m, exactMatch := em,
        matchPaths := mp, excludePaths := some ep } location
      = MatchState.Excluded := by
  simp [matchStateForItem, anyPathStartsWith, hm, hx]

/-- C6 witness: the concrete instance of the claim with the url field
present; the excludePaths entry wins over the matchPaths entry. -/
theorem excludePaths_override_matchPaths_witness :
    matchStateForItem
      { url := some "/foo", «matches» := none, exactMatch := none,
        matchPaths := some ["/foo"], excludePaths := some ["/foo/bar"] } "/foo/bar/"
      = MatchState.Excluded :=
  excludePaths_override_matchPaths "/foo" none none (some ["/foo"]) ["/foo/bar"]
    "/foo/bar/" (by decide) (by decide)

/-- Members of splitHead c l differ from c and come from l. -/
theorem mem_splitHead {c : Char} {l : List Char} {x : Char}
    (hx : x ∈ splitHead c l) : x ≠ c ∧ x ∈ l := by
  refine ⟨?_, (List.takeWhile_sublist _).subset hx⟩
  have := List.mem_takeWhile_imp hx
  simpa using this

/-- splitHead c leaves a list free of c unchanged. -/
theorem splitHead_eq_self {c : Char} {l : List Char} (h : ∀ x ∈ l, x ≠ c) :
    splitHead c l = l :=
  List.takeWhile_eq_self_iff.mpr (fun x hx => by simpa using h x hx)

/-- The bare path of a list free of question marks and hash signs is the
list itself. -/
theorem barePathChars_eq_self {l : List Char}
    (h : ∀ x ∈ l, x ≠ '?' ∧ x ≠ '#') : barePathChars l = l := by
  unfold barePathChars
  rw [splitHead_eq_self (fun x hx => (h x hx).1),
    splitHead_eq_self (fun x hx => (h x hx).2)]

/-- A normalized character list holds no question mark and no hash
sign. -/
theorem mem_normalizeChars {l : List Char} {x : Char}
    (hx : x ∈ normalizeChars l) : x ≠ '?' ∧ x ≠ '#' := by
  unfold normalizeChars at hx
  have hbare : ∀ y ∈ barePathChars l, y ≠ '?' ∧ y ≠ '#' := by
    intro y hy
    obtain ⟨hy2, hy3⟩ := mem_splitHead hy
    obtain ⟨hy4, _⟩ := mem_splitHead hy3
    exact ⟨hy4, hy2⟩
  split at hx
  · exact hbare x hx
  · rcases List.mem_append.mp hx with hmem | hmem
    · exact hbare x hmem
    · have : x = '/' := by simpa using hmem
      subst this
      exact ⟨by decide, by decide⟩

/-- A normalized character list ends with a slash. -/
theorem normalizeChars_getLast (l : List Char) :
    (normalizeChars l).getLast? = some '/' := by
  unfold normalizeChars
  split
  · assumption
  · exact List.getLast?_concat _

/-- Normalization of character lists is idempotent. -/
theorem normalizeChars_idem (l : List Char) :
    normalizeChars (normalizeChars l) = normalizeChars l := by
  rw [show normalizeChars (normalizeChars l) =
      if (barePathChars (normalizeChars l)).getLast? = some '/' then
        barePathChars (normalizeChars l)
      else barePathChars (normalizeChars l) ++ ['/'] from rfl]
  rw [barePathChars_eq_self (fun x hx => mem_normalizeChars hx)]
  rw [if_pos (normalizeChars_getLast l)]

/-- C8: normalizePathname is idempotent on every string. -/
theorem normalizePathname_idempotent (p : String) :
    normalizePathname (normalizePathname p) = normalizePathname p := by
  show String.mk (normalizeChars (String.mk (normalizeChars p.toList)).toList)
    = String.mk (normalizeChars p.toList)
  rw [show (String.mk (normalizeChars p.toList)).toList
    = normalizeChars p.toList from rfl]
  rw [normalizeChars_idem]

/-- C10: a rule whose url is the empty string, with no other field set,
is classified MatchUrl at every location whose normalization begins with
a slash, because the empty string normalizes to a bare slash and the
prefix comparison then always succeeds. -/
theorem empty_url_matches_slash_locations (location : String)
    (h : (normalizePathname location).toList.head? = some '/') :
    matchStateForItem { url := some "" } location = MatchState.MatchUrl := by
  have hs : safeStartsWith location "" = true := by
    show startsWithChars (normalizePathname location).toList
      (normalizePathname "").toList = true
    rw [show (normalizePathname "").toList = ['/'] from rfl]
    cases hl : (normalizePathname location).toList with
    | nil => rw [hl] at h; simp at h
    | cons c t =>
      rw [hl] at h
      simp at h
      subst h
      simp [startsWithChars]
  simp [matchStateForItem, anyPathStartsWith, hs]

/-- C10 witness: at the location /foo, whose normalization /foo/ begins
with a slash, the empty-url rule is classified MatchUrl. -/
theorem empty_url_matches_slash_locations_witness :
    (normalizePathname "/foo").toList.head? = some '/' ∧
    matchStateForItem { url := some "" } "/foo" = MatchState.MatchUrl :=
  ⟨by decide, empty_url_matches_slash_locations "/foo" (by decide)⟩

/-- isActiveState spelt out as the three match states. -/
theorem isActiveState_iff (s : MatchState) :
    isActiveState s = true ↔
      (s = MatchState.MatchForced ∨ s = MatchState.MatchUrl ∨ s = MatchState.MatchPaths) := by
  cases s <;> simp [isActiveState]

/-- C5: an item is active exactly when its own classification is one of
the three match states or at least one sub item's classification is; in
particular a parent whose own url does not match is active as soon as a
sub item matches. -/
theorem isNavItemActive_iff_self_or_child_active (navItem : Props) (currentPath : String) :
    isNavItemActive navItem currentPath = true ↔
      ((matchStateForItem navItem.toDetails currentPath = MatchState.MatchForced ∨
        matchStateForItem navItem.toDetails currentPath = MatchState.MatchUrl ∨
        matchStateForItem navItem.toDetails currentPath = MatchState.MatchPaths) ∨
       ∃ s ∈ navItem.subNavItems.getD [],
         (matchStateForItem s.toDetails currentPath = MatchState.MatchForced ∨
          matchStateForItem s.toDetails currentPath = MatchState.MatchUrl ∨
          matchStateForItem s.toDetails currentPath = MatchState.MatchPaths)) := by
  unfold isNavItemActive
  cases hsub : navItem.subNavItems with
  | none => simp [isActiveState_iff]
  | some items =>
    simp [isActiveState_iff, List.length_pos_iff_exists_mem, List.mem_filter]

/-- Every url length in a list is bounded by maxUrlLength. -/
theorem le_maxUrlLength {l : List SubNavItem} {x : SubNavItem} (hx : x ∈ l) :
    x.url.length ≤ maxUrlLength l := by
  induction l with
  | nil => cases hx
  | cons a rest ih =>
    rcases List.mem_cons.mp hx with rfl | hmem
    · simp [maxUrlLength]
    · have := ih hmem
      simp [maxUrlLength]
      omega

/-- A nonempty list has an element attaining maxUrlLength. -/
theorem exists_maxUrlLength {l : List SubNavItem} (hl : l ≠ []) :
    ∃ x ∈ l, x.url.length = maxUrlLength l := by
  induction l with
  | nil => exact absurd rfl hl
  | cons a rest ih =>
    by_cases hr : rest = []
    · subst hr
      exact ⟨a, List.mem_cons_self a _, by simp [maxUrlLength]⟩
    · obtain ⟨x, hx, hxe⟩ := ih hr
      rcases Nat.le_total (maxUrlLength rest) a.url.length with hle | hle
      · refine ⟨a, List.mem_cons_self a _, ?_⟩
        simp [maxUrlLength]
        omega
      · refine ⟨x, List.mem_cons_of_mem a hx, ?_⟩
        rw [hxe]
        simp [maxUrlLength]
        omega

/-- firstLongest yields none exactly on the empty list. -/
theorem firstLongest_eq_none_iff (l : List SubNavItem) :
    firstLongest l = none ↔ l = [] := by
  cases l with
  | nil => simp [firstLongest]
  | cons a rest =>
    cases h : firstLongest rest
    · simp [firstLongest, h]
    · simp only [firstLongest, h]
      split <;> simp

/-- firstLongest is the head of the sublist of elements attaining
maxUrlLength. -/
theorem firstLongest_eq_filter_head (l : List SubNavItem) :
    firstLongest l
      = (l.filter (fun x => x.url.length == maxUrlLength l)).head? := by
  induction l with
  | nil => rfl
  | cons a rest ih =>
    cases hfr : firstLongest rest with
    | none =>
      have hrest : rest = [] := (firstLongest_eq_none_iff rest).mp hfr
      subst hrest
      simp [firstLongest, maxUrlLength, List.filter_cons]
    | some b =>
      have hbmem : b ∈ rest.filter (fun x => x.url.length == maxUrlLength rest) := by
        rw [ih] at hfr
        cases hh : rest.filter (fun x => x.url.length == maxUrlLength rest) with
        | nil => rw [hh] at hfr; simp at hfr
        | cons c cs =>
          rw [hh] at hfr
          simp at hfr
          subst hfr
          exact List.mem_cons_self _ _
      have hbM : b.url.length = maxUrlLength rest := by
        have := (List.mem_filter.mp hbmem).2
        simpa using this
      by_cases hab : a.url.length < b.url.length
      · have hmax : maxUrlLength (a :: rest) = maxUrlLength rest := by
          simp [maxUrlLength]
          omega
        have hpa : (a.url.length == maxUrlLength (a :: rest)) = false := by
          rw [hmax]
          simp
          omega
        simp only [firstLongest, hfr, if_pos hab, List.filter_cons, hpa]
        rw [hmax]
        simp only [Bool.false_eq_true, if_false]
        exact ih.symm ▸ hfr.symm ▸ rfl
      · have hmax : maxUrlLength (a :: rest) = a.url.length := by
          simp [maxUrlLength]
          omega
        have hpa : (a.url.length == maxUrlLength (a :: rest)) = true := by
          rw [hmax]
          simp
        simp only [firstLongest, hfr, if_neg hab, List.filter_cons, hpa]
        simp

/-- The comparator relation is transitive. -/
theorem subItemBefore_trans (a b c : SubNavItem) :
    subItemBefore a b = true → subItemBefore b c = true → subItemBefore a c = true := by
  simp [subItemBefore]
  omega

/-- The comparator relation is total. -/
theorem subItemBefore_total (a b : SubNavItem) :
    (subItemBefore a b || subItemBefore b a) = true := by
  simp [subItemBefore]
  omega

/-- Head of the stable sort under the descending url-length comparator:
it is the first element of greatest url length. The proof combines the
permutation, sortedness and stability properties of mergeSort: the
elements attaining the greatest length form a sorted sublist, hence a
sublist of the sorted output of the same length as the output's filtered
prefix, so the two agree and their common head is the first maximal
element of the input. -/
theorem head_mergeSort_eq_firstLongest (l : List SubNavItem) :
    (l.mergeSort subItemBefore).head? = firstLongest l := by
  rcases eq_or_ne l [] with rfl | hne
  · simp [List.mergeSort_nil, firstLongest]
  · have hperm : (l.mergeSort subItemBefore).Perm l := List.mergeSort_perm l _
    have hsorted := List.sorted_mergeSort subItemBefore_trans subItemBefore_total l
    obtain ⟨h, t, hht⟩ : ∃ h t, l.mergeSort subItemBefore = h :: t := by
      cases hM : l.mergeSort subItemBefore with
      | nil =>
        have : l.length = 0 := by
          have := hperm.length_eq
          rw [hM] at this
          simpa using this.symm
        exact absurd (List.length_eq_zero.mp this) hne
      | cons h t => exact ⟨h, t, rfl⟩
    obtain ⟨x, hxl, hxM⟩ := exists_maxUrlLength hne
    have hhl : h ∈ l := hperm.mem_iff.mp (by rw [hht]; exact List.mem_cons_self h t)
    have hhle : h.url.length ≤ maxUrlLength l := le_maxUrlLength hhl
    have hhM : h.url.length = maxUrlLength l := by
      have hxl2 : x ∈ l.mergeSort subItemBefore := hperm.mem_iff.mpr hxl
      rw [hht] at hxl2
      rcases List.mem_cons.mp hxl2 with rfl | hxt
      · exact hxM
      · have hpair := hsorted
        rw [hht] at hpair
        have hhx := (List.pairwise_cons.mp hpair).1 x hxt
        simp [subItemBefore] at hhx
        omega
    have hph : (h.url.length == maxUrlLength l) = true := by
      rw [hhM]
      simp
    have hfsub : (l.filter (fun y => y.url.length == maxUrlLength l)).Sublist
        (l.mergeSort subItemBefore) := by
      apply List.sublist_mergeSort subItemBefore_trans subItemBefore_total
      · apply List.pairwise_of_forall_mem_list
        intro a ha b hb
        have hpa := (List.mem_filter.mp ha).2
        have hpb := (List.mem_filter.mp hb).2
        simp at hpa hpb
        simp [subItemBefore]
        omega
      · exact List.filter_sublist l
    have hfsub2 : (l.filter (fun y => y.url.length == maxUrlLength l)).Sublist
        ((l.mergeSort subItemBefore).filter (fun y => y.url.length == maxUrlLength l)) := by
      have hstep := List.Sublist.filter (fun y => y.url.length == maxUrlLength l) hfsub
      have heq : (l.filter (fun y => y.url.length == maxUrlLength l)).filter
          (fun y => y.url.length == maxUrlLength l)
          = l.filter (fun y => y.url.length == maxUrlLength l) :=
        List.filter_eq_self.mpr (fun a ha => (List.mem_filter.mp ha).2)
      rwa [heq] at hstep
    have hlen : ((l.mergeSort subItemBefore).filter
        (fun y => y.url.length == maxUrlLength l)).length
        = (l.filter (fun y => y.url.length == maxUrlLength l)).length :=
      (hperm.filter _).length_eq
    have hfeq : l.filter (fun y => y.url.length == maxUrlLength l)
        = (l.mergeSort subItemBefore).filter (fun y => y.url.length == maxUrlLength l) :=
      hfsub2.eq_of_length hlen.symm
    rw [firstLongest_eq_filter_head, hfeq, hht, List.filter_cons, if_pos hph]
    simp

/-- C4: among the sub items whose classification is one of the three
active states, longestMatch selects the first one of greatest url length
(so ties go to input order, the sort being stable), and it selects none
exactly when no sub item is active, in particular on the empty list. -/
theorem longestMatch_selects_first_longest_active
    (subNavItems : List SubNavItem) (location : String) :
    longestMatch subNavItems location
      = firstLongest (matchingSubNavItems subNavItems location) ∧
    (longestMatch subNavItems location = none ↔
      matchingSubNavItems subNavItems location = []) := by
  have h := head_mergeSort_eq_firstLongest (matchingSubNavItems subNavItems location)
  refine ⟨h, ?_⟩
  unfold longestMatch
  rw [h]
  exact firstLongest_eq_none_iff _
